import Mathlib

/-!
# A shallow embedding of `apscheduler/threadpool.py`

The source file implements an elastic thread pool (`ThreadPool`) with

* a shared unbounded FIFO `queue` of tasks,
* counters `num_threads` / `busy_threads` guarded by `threads_lock`,
* configuration `core_threads`, `max_threads` (clamped on construction),
  `keepalive`, `exception_callback`,
* `execute(func, args, kwargs)` which may launch a worker thread
  (`_add_thread`) and always enqueues the task,
* `_run_jobs(core)`, the worker loop: increment `num_threads` on entry,
  repeatedly `get` from the queue (blocking forever for core workers,
  with `timeout=keepalive` for transient ones), run the task, swallow and
  log task exceptions (invoking `exception_callback` when configured),
  and on an `Empty` signal decrement `num_threads` and exit.

We embed the pool as an explicit state machine.  Each lock-protected
section of the Python code becomes one atomic step; thread interleavings
are arbitrary sequences of steps.  A worker that has been launched by
`_add_thread` but has not yet executed `self._add_threadcount(1)` at the
top of `_run_jobs` is in phase `pending` — this window is real in the
code because `_add_thread` itself never touches `num_threads`.
-/

set_option autoImplicit false

namespace ThreadPool

/-- A submitted task.  The callable, its positional and keyword arguments
are opaque to the pool; the only behaviour of `func(*args, **kwargs)` the
pool can observe is whether the invocation raises, so that is all we
record. -/
structure Task where
  raises : Bool
deriving DecidableEq, Repr

/-- The phase of one worker thread.

* `pending`: launched by `_add_thread` (its `Thread.start` has returned)
  but the thread has not yet run `self._add_threadcount(1)`.
* `idle`: inside the `while True` loop, waiting on `self.queue.get`.
* `busy t`: between `self._add_busycount(1)` and `self._add_busycount(-1)`,
  executing task `t`.
* `exited`: left the loop via the `except Empty: break` path and ran
  `self._add_threadcount(-1)`.
* `crashed`: killed by an exception that escaped the loop body (the only
  such possibility in the loop is `self.exception_callback()` raising
  inside the `except:` handler); neither `self._add_busycount(-1)` nor
  `self._add_threadcount(-1)` was executed. -/
inductive Phase where
  | pending : Phase
  | idle : Phase
  | busy : Task → Phase
  | exited : Phase
  | crashed : Phase
deriving DecidableEq, Repr

/-- One worker thread: the `core` flag it was created with (the argument
`_add_thread` passes to `_run_jobs`) and its current phase. -/
structure Worker where
  core : Bool
  phase : Phase
deriving DecidableEq, Repr

/-- Construction-time configuration, immutable after `__init__`.

`maxThreads = none` models `max_threads=None`; `some k` models the integer
`k`.  `exceptionCallback = none` models no callback configured;
`some b` models a configured zero-argument callable whose invocation
raises iff `b` (the callback is an external collaborator, so its
behaviour is a parameter of the model). -/
structure Config where
  coreThreads : Nat
  maxThreads : Option Nat
  keepalive : Int
  exceptionCallback : Option Bool
deriving DecidableEq, Repr

/-- The shared state of the pool, plus the phases of all worker threads
ever launched (workers are listed in creation order and never removed;
a dead worker stays in the list with phase `exited` or `crashed`) and an
instrumentation counter `callbackCalls` recording how many times
`self.exception_callback()` was invoked. -/
structure PoolState where
  cfg : Config
  numThreads : Int
  busyThreads : Int
  queue : List Task
  workers : List Worker
  callbackCalls : Nat
deriving DecidableEq, Repr

/-- Python truthiness of `self.max_threads` (`None` and `0` are falsy). -/
def truthy : Option Nat → Bool
  | none => false
  | some k => k != 0

/-- The Python 2 comparison `self.num_threads < self.max_threads`.
When `max_threads` is `None`, `int < None` is `False` in Python 2
(`None` compares below every integer). -/
def ltMax (n : Int) : Option Nat → Bool
  | none => false
  | some k => n < (k : Int)

/-- `ThreadPool.__init__(core_threads, max_threads, keepalive,
exception_callback)`: zero counters, empty queue, and
`if max_threads: self.max_threads = max(max_threads, core_threads, 1)`. -/
def init (coreThreads : Nat) (maxThreads : Option Nat) (keepalive : Int)
    (exceptionCallback : Option Bool) : PoolState :=
  let mt : Option Nat :=
    if truthy maxThreads then
      match maxThreads with
      | none => none
      | some k => some (Nat.max k (Nat.max coreThreads 1))
    else maxThreads
  { cfg := { coreThreads := coreThreads, maxThreads := mt,
             keepalive := keepalive, exceptionCallback := exceptionCallback }
    numThreads := 0
    busyThreads := 0
    queue := []
    workers := []
    callbackCalls := 0 }

/-- The spawn predicate of `execute`, exactly as Python parses it:
`self.busy_threads == self.num_threads and not self.max_threads
 or self.num_threads < self.max_threads`
is `(busy == num and (not max)) or (num < max)`. -/
def spawnPred (s : PoolState) : Bool :=
  (s.busyThreads == s.numThreads && !truthy s.cfg.maxThreads)
    || ltMax s.numThreads s.cfg.maxThreads

/-- `_add_thread`: compute `core = self.num_threads < self.core_threads`,
create the worker thread and start it.  Note that `num_threads` is *not*
incremented here; the new thread is `pending` until it runs the first
line of `_run_jobs`. -/
def addThread (s : PoolState) : PoolState :=
  { s with workers :=
      s.workers ++ [{ core := decide (s.numThreads < (s.cfg.coreThreads : Int)),
                      phase := Phase.pending }] }

/-- `execute(func, args, kwargs)`: under `threads_lock`, evaluate the
spawn predicate and possibly `_add_thread`; then (after releasing the
lock) `self.queue.put((func, args, kwargs))`. -/
def execute (s : PoolState) (t : Task) : PoolState :=
  let s1 := if spawnPred s then addThread s else s
  { s1 with queue := s1.queue ++ [t] }

/-- The arguments `(block, timeout)` the worker loop passes to
`self.queue.get`: `block = True, timeout = None`, overridden for
non-core workers to `block = self.keepalive > 0, timeout = self.keepalive`. -/
def getParams (cfg : Config) (core : Bool) : Bool × Option Int :=
  if core then (true, none) else (decide (0 < cfg.keepalive), some cfg.keepalive)

/-- Whether `Queue.get(block, timeout)` can raise `Empty`: it delivers an
item whenever the queue is non-empty; on an empty queue it raises `Empty`
immediately when `block` is false, after the timeout when a timeout is
given, and otherwise blocks forever (so `Empty` is unreachable). -/
def emptyPossible (block : Bool) (timeout : Option Int) (queue : List Task) : Bool :=
  queue.isEmpty && (!block || timeout.isSome)

/-- The interleaved actions of the system: a submitter thread calling
`execute`, or one step of the worker thread at index `i` of the creation
list.

* `enter i`: the first line of `_run_jobs`, `self._add_threadcount(1)`.
* `take i`: `self.queue.get` returns a task and the worker runs
  `self._add_busycount(1)`.
* `finish i`: the task invocation returns or raises, the `except:`
  handler runs (logging, then `self.exception_callback()` if configured),
  and — unless the callback itself raised — `self._add_busycount(-1)`.
* `timeoutExit i`: `self.queue.get` raises `Empty`, the worker breaks out
  of the loop and runs `self._add_threadcount(-1)`. -/
inductive Action where
  | exec : Task → Action
  | enter : Nat → Action
  | take : Nat → Action
  | finish : Nat → Action
  | timeoutExit : Nat → Action
deriving DecidableEq, Repr

/-- One atomic step of the pool; `none` when the action is not enabled in
the given state. -/
def step (s : PoolState) : Action → Option PoolState
  | Action.exec t => some (execute s t)
  | Action.enter i =>
    match s.workers[i]? with
    | some w =>
      if w.phase = Phase.pending then
        some { s with numThreads := s.numThreads + 1,
                      workers := s.workers.set i { w with phase := Phase.idle } }
      else none
    | none => none
  | Action.take i =>
    match s.workers[i]?, s.queue with
    | some w, t :: rest =>
      if w.phase = Phase.idle then
        some { s with queue := rest,
                      busyThreads := s.busyThreads + 1,
                      workers := s.workers.set i { w with phase := Phase.busy t } }
      else none
    | _, _ => none
  | Action.finish i =>
    match s.workers[i]? with
    | some w =>
      match w.phase with
      | Phase.busy t =>
        let calls :=
          if t.raises && s.cfg.exceptionCallback.isSome then s.callbackCalls + 1
          else s.callbackCalls
        if t.raises && s.cfg.exceptionCallback == some true then
          some { s with callbackCalls := calls,
                        workers := s.workers.set i { w with phase := Phase.crashed } }
        else
          some { s with callbackCalls := calls,
                        busyThreads := s.busyThreads - 1,
                        workers := s.workers.set i { w with phase := Phase.idle } }
      | _ => none
    | none => none
  | Action.timeoutExit i =>
    match s.workers[i]? with
    | some w =>
      if w.phase = Phase.idle then
        let p := getParams s.cfg w.core
        if emptyPossible p.1 p.2 s.queue then
          some { s with numThreads := s.numThreads - 1,
                        workers := s.workers.set i { w with phase := Phase.exited } }
        else none
      else none
    | none => none

/-- Run a sequence of actions from a state; `none` if any action is not
enabled where it occurs. -/
def runTrace (s : PoolState) : List Action → Option PoolState
  | [] => some s
  | a :: rest =>
    match step s a with
    | some s1 => runTrace s1 rest
    | none => none

/-- Reachability in the interleaved semantics. -/
def Reachable (s0 s : PoolState) : Prop :=
  ∃ as : List Action, runTrace s0 as = some s

/-- The workers `num_threads` counts: those that have executed
`self._add_threadcount(1)` (top of `_run_jobs`) and not
`self._add_threadcount(-1)` (bottom of `_run_jobs`).  A `crashed` worker
is still counted: the decrement at the bottom of `_run_jobs` was skipped. -/
def countedInNum (w : Worker) : Bool :=
  match w.phase with
  | Phase.idle => true
  | Phase.busy _ => true
  | Phase.crashed => true
  | _ => false

/-- The workers `busy_threads` counts: those that have executed
`self._add_busycount(1)` and not `self._add_busycount(-1)`.  A `crashed`
worker is still counted: the exception from the callback skipped
`self._add_busycount(-1)`. -/
def countedInBusy (w : Worker) : Bool :=
  match w.phase with
  | Phase.busy _ => true
  | Phase.crashed => true
  | _ => false

/-- `execute` under the sequentialized scheduling in which the worker
launched by `_add_thread` runs the first line of `_run_jobs`
(`self._add_threadcount(1)`) before any other thread takes a step: the
spawn, when it happens, is immediately followed by the new worker's
`enter` step. -/
def seqExec (s : PoolState) (t : Task) : Option PoolState :=
  if spawnPred s then step (execute s t) (Action.enter s.workers.length)
  else some (execute s t)

/-- One step of the sequentialized semantics: `exec` is atomically
followed by the spawned worker's entry; all other actions are as in the
interleaved semantics. -/
def seqStep (s : PoolState) : Action → Option PoolState
  | Action.exec t => seqExec s t
  | a => step s a

/-- Run a sequence of actions in the sequentialized semantics. -/
def runSeqTrace (s : PoolState) : List Action → Option PoolState
  | [] => some s
  | a :: rest =>
    match seqStep s a with
    | some s1 => runSeqTrace s1 rest
    | none => none

/-- `Queue.put` on an unbounded `Queue.Queue`: never raises and never
blocks (the queue has no maximum size). -/
def queuePut (q : List Task) (t : Task) : Except String (List Task) :=
  Except.ok (q ++ [t])

/-- The body of the `try:` block of `execute`, with a fallible result
type recording whether it raises.  Evaluating the spawn predicate only
compares Python 2 integers with integers or `None`, which is total, and
`_add_thread` creates and starts a daemon `Thread`; none of these raises,
so the body always returns normally. -/
def executeTryBody (s : PoolState) : Except String PoolState :=
  Except.ok (if spawnPred s then addThread s else s)

/-- `execute` with every potentially raising operation made explicit.
The `try/finally` releases `threads_lock` whether or not the body raises;
after that, `self.queue.put((func, args, kwargs))` runs. -/
def executeE (s : PoolState) (t : Task) : Except String PoolState :=
  match executeTryBody s with
  | Except.ok s1 =>
    match queuePut s1.queue t with
    | Except.ok q => Except.ok { s1 with queue := q }
    | Except.error e => Except.error e
  | Except.error e => Except.error e

/-- The counter bookkeeping invariant of the interleaved semantics:
`num_threads` and `busy_threads` are exactly the number of workers whose
matching increment has run and whose matching decrement has not, and
workers can only crash when a configured exception callback raises. -/
structure CounterInv (s : PoolState) : Prop where
  num_eq : s.numThreads = (s.workers.countP countedInNum : Int)
  busy_eq : s.busyThreads = (s.workers.countP countedInBusy : Int)
  no_crash : s.cfg.exceptionCallback ≠ some true →
    ∀ w ∈ s.workers, w.phase ≠ Phase.crashed

/-- The invariant of the sequentialized semantics used for the core-flag
analysis: worker `i` (in creation order) is flagged core iff `i` is below
`core_threads`, no worker is ever `pending`, `num_threads` counts the
entered-and-not-exited workers, and core workers never leave that count. -/
structure SeqInv (c : Nat) (s : PoolState) : Prop where
  cfg_core : s.cfg.coreThreads = c
  flags : ∀ (i : Nat) (w : Worker), s.workers[i]? = some w → w.core = decide (i < c)
  no_pending : ∀ w ∈ s.workers, w.phase ≠ Phase.pending
  num_eq : s.numThreads = (s.workers.countP countedInNum : Int)
  cores_alive : ∀ w ∈ s.workers, w.core = true → countedInNum w = true

/-- The state reached from `init 1 none 1 none` by one sequentialized
`execute`: one core worker, idle, one queued task. -/
def sampleSeqState : PoolState :=
  { cfg := { coreThreads := 1, maxThreads := none, keepalive := 1,
             exceptionCallback := none }
    numThreads := 1
    busyThreads := 0
    queue := [{ raises := false }]
    workers := [{ core := true, phase := Phase.idle }]
    callbackCalls := 0 }

/-- The state reached from `init 0 none 1 none` by running one submitted
task to completion: one transient worker, idle, empty queue. -/
def sampleQuiescentState : PoolState :=
  { cfg := { coreThreads := 0, maxThreads := none, keepalive := 1,
             exceptionCallback := none }
    numThreads := 1
    busyThreads := 0
    queue := []
    workers := [{ core := false, phase := Phase.idle }]
    callbackCalls := 0 }

/-- A pool with one transient worker executing a task that raises, with a
well-behaved exception callback configured. -/
def sampleBusyState : PoolState :=
  { cfg := { coreThreads := 0, maxThreads := none, keepalive := 1,
             exceptionCallback := some false }
    numThreads := 1
    busyThreads := 1
    queue := []
    workers := [{ core := false, phase := Phase.busy { raises := true } }]
    callbackCalls := 0 }

/-- A pool with one transient worker executing a task that raises, whose
configured exception callback itself raises when invoked. -/
def sampleCrashingState : PoolState :=
  { cfg := { coreThreads := 0, maxThreads := none, keepalive := 1,
             exceptionCallback := some true }
    numThreads := 1
    busyThreads := 1
    queue := []
    workers := [{ core := false, phase := Phase.busy { raises := true } }]
    callbackCalls := 0 }

/-! ## Helper lemmas -/

theorem lt_length_of_getElem? {ws : List Worker} {i : Nat} {w : Worker}
    (h : ws[i]? = some w) : i < ws.length := by
  rcases List.getElem?_eq_some.mp h with ⟨hlt, _⟩
  exact hlt

theorem mem_of_getElem?_eq {ws : List Worker} {i : Nat} {w : Worker}
    (h : ws[i]? = some w) : w ∈ ws := by
  rcases List.getElem?_eq_some.mp h with ⟨hlt, hg⟩
  exact hg ▸ List.getElem_mem hlt

theorem set_concat_length {α : Type} (l : List α) (a b : α) :
    (l ++ [a]).set l.length b = l ++ [b] := by
  induction l with
  | nil => rfl
  | cons x xs ih => simp only [List.cons_append, List.length_cons, List.set_cons_succ, ih]

/-- Replacing element `i` changes `countP` by the difference of the old
and new elements' contributions. -/
theorem countP_set_add (p : Worker → Bool) (ws : List Worker) (i : Nat)
    (w w' : Worker) (hw : ws[i]? = some w) :
    (ws.set i w').countP p + (if p w then 1 else 0)
      = ws.countP p + (if p w' then 1 else 0) := by
  rcases List.getElem?_eq_some.mp hw with ⟨hlt, hg⟩
  have hset := List.countP_set p ws i w' hlt
  by_cases hpw : p w = true
  · have hpos : 0 < ws.countP p :=
      List.countP_pos_iff.mpr ⟨w, hg ▸ List.getElem_mem hlt, hpw⟩
    rw [hg] at hset
    rw [if_pos hpw] at hset ⊢
    omega
  · rw [hg] at hset
    rw [if_neg hpw] at hset ⊢
    omega

theorem step_enter_eq (s : PoolState) (i : Nat) (w : Worker)
    (hw : s.workers[i]? = some w) (hp : w.phase = Phase.pending) :
    step s (Action.enter i)
      = some { s with
          numThreads := s.numThreads + 1
          workers := s.workers.set i { w with phase := Phase.idle } } := by
  simp [step, hw, hp]

theorem step_take_eq (s : PoolState) (i : Nat) (w : Worker) (t : Task)
    (rest : List Task) (hw : s.workers[i]? = some w) (hq : s.queue = t :: rest)
    (hp : w.phase = Phase.idle) :
    step s (Action.take i)
      = some { s with
          queue := rest
          busyThreads := s.busyThreads + 1
          workers := s.workers.set i { w with phase := Phase.busy t } } := by
  simp [step, hw, hq, hp]

theorem step_finish_ok_eq (s : PoolState) (i : Nat) (w : Worker) (t : Task)
    (hw : s.workers[i]? = some w) (hp : w.phase = Phase.busy t)
    (hnc : (t.raises && s.cfg.exceptionCallback == some true) = false) :
    step s (Action.finish i)
      = some { s with
          callbackCalls :=
            if t.raises && s.cfg.exceptionCallback.isSome then
              s.callbackCalls + 1
            else s.callbackCalls
          busyThreads := s.busyThreads - 1
          workers := s.workers.set i { w with phase := Phase.idle } } := by
  simp [step, hw, hp, hnc]

theorem step_finish_crash_eq (s : PoolState) (i : Nat) (w : Worker) (t : Task)
    (hw : s.workers[i]? = some w) (hp : w.phase = Phase.busy t)
    (hr : t.raises = true) (hcb : s.cfg.exceptionCallback = some true) :
    step s (Action.finish i)
      = some { s with
          callbackCalls := s.callbackCalls + 1
          workers := s.workers.set i { w with phase := Phase.crashed } } := by
  simp [step, hw, hp, hr, hcb]

theorem step_timeoutExit_eq (s : PoolState) (i : Nat) (w : Worker)
    (hw : s.workers[i]? = some w) (hp : w.phase = Phase.idle)
    (hcore : w.core = false) (hq : s.queue = []) :
    step s (Action.timeoutExit i)
      = some { s with
          numThreads := s.numThreads - 1
          workers := s.workers.set i { w with phase := Phase.exited } } := by
  simp [step, hw, hp, hcore, hq, getParams, emptyPossible]

theorem step_enter_inv {s s' : PoolState} {i : Nat}
    (hs : step s (Action.enter i) = some s') :
    ∃ w : Worker, s.workers[i]? = some w ∧ w.phase = Phase.pending
      ∧ s' = { s with
          numThreads := s.numThreads + 1
          workers := s.workers.set i { w with phase := Phase.idle } } := by
  simp only [step] at hs
  split at hs
  · rename_i w hw
    split at hs
    · rename_i hp
      exact ⟨w, hw, hp, (Option.some.inj hs).symm⟩
    · cases hs
  · cases hs

theorem step_take_inv {s s' : PoolState} {i : Nat}
    (hs : step s (Action.take i) = some s') :
    ∃ (w : Worker) (t : Task) (rest : List Task),
      s.workers[i]? = some w ∧ s.queue = t :: rest ∧ w.phase = Phase.idle
      ∧ s' = { s with
          queue := rest
          busyThreads := s.busyThreads + 1
          workers := s.workers.set i { w with phase := Phase.busy t } } := by
  simp only [step] at hs
  split at hs
  · rename_i w t rest hw hq
    split at hs
    · rename_i hp
      exact ⟨w, t, rest, hw, hq, hp, (Option.some.inj hs).symm⟩
    · cases hs
  · cases hs

theorem step_finish_inv {s s' : PoolState} {i : Nat}
    (hs : step s (Action.finish i) = some s') :
    ∃ (w : Worker) (t : Task),
      s.workers[i]? = some w ∧ w.phase = Phase.busy t
      ∧ (((t.raises && s.cfg.exceptionCallback == some true) = true
          ∧ s' = { s with
              callbackCalls := s.callbackCalls + 1
              workers := s.workers.set i { w with phase := Phase.crashed } })
        ∨ ((t.raises && s.cfg.exceptionCallback == some true) = false
          ∧ s' = { s with
              callbackCalls :=
                if t.raises && s.cfg.exceptionCallback.isSome then
                  s.callbackCalls + 1
                else s.callbackCalls
              busyThreads := s.busyThreads - 1
              workers := s.workers.set i { w with phase := Phase.idle } })) := by
  simp only [step] at hs
  split at hs
  · rename_i w hw
    split at hs
    · rename_i t hp
      split at hs
      · rename_i hc
        refine ⟨w, t, hw, hp, Or.inl ⟨hc, ?_⟩⟩
        rw [← Option.some.inj hs]
        rw [Bool.and_eq_true] at hc
        obtain ⟨hr, hcb⟩ := hc
        have hsome : s.cfg.exceptionCallback.isSome = true := by
          rcases hx : s.cfg.exceptionCallback with _ | b
          · rw [hx] at hcb; cases hcb
          · rfl
        simp [hr, hsome]
      · rename_i hc
        exact ⟨w, t, hw, hp, Or.inr ⟨Bool.of_not_eq_true hc, (Option.some.inj hs).symm⟩⟩
    · cases hs
  · cases hs

theorem step_timeoutExit_inv {s s' : PoolState} {i : Nat}
    (hs : step s (Action.timeoutExit i) = some s') :
    ∃ w : Worker, s.workers[i]? = some w ∧ w.phase = Phase.idle
      ∧ w.core = false ∧ s.queue = []
      ∧ s' = { s with
          numThreads := s.numThreads - 1
          workers := s.workers.set i { w with phase := Phase.exited } } := by
  simp only [step] at hs
  split at hs
  · rename_i w hw
    split at hs
    · rename_i hp
      split at hs
      · rename_i hq
        rcases hcore : w.core with _ | _
        · have hqe : s.queue = [] := by
            rw [hcore] at hq
            simp [getParams, emptyPossible] at hq
            exact hq
          exact ⟨w, hw, hp, hcore, hqe, (Option.some.inj hs).symm⟩
        · rw [hcore] at hq
          simp [getParams, emptyPossible] at hq
      · cases hs
    · cases hs
  · cases hs

theorem counterInv_init (c : Nat) (mt : Option Nat) (kl : Int)
    (cb : Option Bool) : CounterInv (init c mt kl cb) := by
  refine ⟨?_, ?_, ?_⟩ <;> simp [init]

theorem set_preserves {ws : List Worker} {j k : Nat} {v v' wk u : Worker}
    (hv : ws[j]? = some v) (hk : ws[k]? = some wk)
    (hv' : (ws.set k u)[j]? = some v') :
    (j ≠ k ∧ v' = v) ∨ (j = k ∧ v' = u ∧ v = wk) := by
  by_cases hjk : j = k
  · subst hjk
    rw [List.getElem?_set_self (lt_length_of_getElem? hv)] at hv'
    exact Or.inr ⟨rfl, (Option.some.inj hv').symm,
      Option.some.inj (hv.symm.trans hk)⟩
  · rw [List.getElem?_set_ne (fun h => hjk h.symm)] at hv'
    exact Or.inl ⟨hjk, Option.some.inj (hv'.symm.trans hv)⟩

theorem execute_workers_getElem {s : PoolState} {t : Task} {j : Nat} {v : Worker}
    (hv : s.workers[j]? = some v) : (execute s t).workers[j]? = some v := by
  have hj : j < s.workers.length := lt_length_of_getElem? hv
  by_cases h : spawnPred s
  · have hx : (execute s t).workers
        = s.workers ++ [{ core := decide (s.numThreads < (s.cfg.coreThreads : Int)),
                          phase := Phase.pending }] := by
      simp [execute, addThread, h]
    rw [hx, List.getElem?_append, if_pos hj]
    exact hv
  · have hx : (execute s t).workers = s.workers := by simp [execute, h]
    rw [hx]; exact hv

theorem counterInv_step {s s' : PoolState} {a : Action}
    (hs : step s a = some s') (hinv : CounterInv s) :
    CounterInv s' ∧ s'.cfg = s.cfg := by
  obtain ⟨hnum, hbusy, hnc⟩ := hinv
  cases a with
  | exec t =>
    have hs' : s' = execute s t := (Option.some.inj hs).symm
    subst hs'
    by_cases h : spawnPred s
    · refine ⟨⟨?_, ?_, ?_⟩, ?_⟩
      · simp [execute, addThread, h, List.countP_append, countedInNum, hnum]
      · simp [execute, addThread, h, List.countP_append, countedInBusy, hbusy]
      · intro hcb w hw
        have hcb0 : s.cfg.exceptionCallback ≠ some true := by
          simpa [execute, addThread, h] using hcb
        simp [execute, addThread, h] at hw
        rcases hw with hw | hw
        · exact hnc hcb0 w hw
        · subst hw; simp
      · simp [execute, addThread, h]
    · refine ⟨⟨?_, ?_, ?_⟩, ?_⟩
      · simp [execute, h, hnum]
      · simp [execute, h, hbusy]
      · intro hcb w hw
        have hcb0 : s.cfg.exceptionCallback ≠ some true := by
          simpa [execute, h] using hcb
        simp [execute, h] at hw
        exact hnc hcb0 w hw
      · simp [execute, h]
  | enter i =>
    obtain ⟨w, hw, hp, rfl⟩ := step_enter_inv hs
    have hcn := countP_set_add countedInNum s.workers i w
      { w with phase := Phase.idle } hw
    have hcb2 := countP_set_add countedInBusy s.workers i w
      { w with phase := Phase.idle } hw
    rw [show countedInNum w = false by simp [countedInNum, hp]] at hcn
    rw [show countedInBusy w = false by simp [countedInBusy, hp]] at hcb2
    simp only [countedInNum, countedInBusy] at hcn hcb2
    refine ⟨⟨?_, ?_, ?_⟩, rfl⟩
    · show s.numThreads + 1
        = ((s.workers.set i { w with phase := Phase.idle }).countP countedInNum : Int)
      simp at hcn
      rw [hcn]
      push_cast
      rw [hnum]
    · show s.busyThreads
        = ((s.workers.set i { w with phase := Phase.idle }).countP countedInBusy : Int)
      simp at hcb2
      rw [hcb2, hbusy]
    · intro hcb w' hw'
      rcases List.mem_or_eq_of_mem_set hw' with hmem | rfl
      · exact hnc hcb w' hmem
      · simp
  | take i =>
    obtain ⟨w, t, rest, hw, hq, hp, rfl⟩ := step_take_inv hs
    have hcn := countP_set_add countedInNum s.workers i w
      { w with phase := Phase.busy t } hw
    have hcb2 := countP_set_add countedInBusy s.workers i w
      { w with phase := Phase.busy t } hw
    rw [show countedInNum w = true by simp [countedInNum, hp]] at hcn
    rw [show countedInBusy w = false by simp [countedInBusy, hp]] at hcb2
    simp only [countedInNum, countedInBusy] at hcn hcb2
    refine ⟨⟨?_, ?_, ?_⟩, rfl⟩
    · show s.numThreads
        = ((s.workers.set i { w with phase := Phase.busy t }).countP countedInNum : Int)
      simp at hcn
      rw [hcn, hnum]
    · show s.busyThreads + 1
        = ((s.workers.set i { w with phase := Phase.busy t }).countP countedInBusy : Int)
      simp at hcb2
      rw [hcb2]
      push_cast
      rw [hbusy]
    · intro hcb w' hw'
      rcases List.mem_or_eq_of_mem_set hw' with hmem | rfl
      · exact hnc hcb w' hmem
      · simp
  | finish i =>
    obtain ⟨w, t, hw, hp, hcase⟩ := step_finish_inv hs
    rcases hcase with ⟨hc, rfl⟩ | ⟨hc, rfl⟩
    · -- callback raised: worker crashes, counters unchanged
      have hcbtrue : s.cfg.exceptionCallback = some true := by
        rw [Bool.and_eq_true] at hc
        exact eq_of_beq hc.2
      have hcn := countP_set_add countedInNum s.workers i w
        { w with phase := Phase.crashed } hw
      have hcb2 := countP_set_add countedInBusy s.workers i w
        { w with phase := Phase.crashed } hw
      rw [show countedInNum w = true by simp [countedInNum, hp]] at hcn
      rw [show countedInBusy w = true by simp [countedInBusy, hp]] at hcb2
      simp only [countedInNum, countedInBusy] at hcn hcb2
      refine ⟨⟨?_, ?_, ?_⟩, rfl⟩
      · show s.numThreads
          = ((s.workers.set i { w with phase := Phase.crashed }).countP countedInNum : Int)
        simp at hcn
        rw [hcn, hnum]
      · show s.busyThreads
          = ((s.workers.set i { w with phase := Phase.crashed }).countP countedInBusy : Int)
        simp at hcb2
        rw [hcb2, hbusy]
      · intro hcb _ _
        exact absurd hcbtrue hcb
    · -- normal path: busy decremented, worker back to idle
      have hcn := countP_set_add countedInNum s.workers i w
        { w with phase := Phase.idle } hw
      have hcb2 := countP_set_add countedInBusy s.workers i w
        { w with phase := Phase.idle } hw
      rw [show countedInNum w = true by simp [countedInNum, hp]] at hcn
      rw [show countedInBusy w = true by simp [countedInBusy, hp]] at hcb2
      simp only [countedInNum, countedInBusy] at hcn hcb2
      refine ⟨⟨?_, ?_, ?_⟩, rfl⟩
      · show s.numThreads
          = ((s.workers.set i { w with phase := Phase.idle }).countP countedInNum : Int)
        simp at hcn
        rw [hcn, hnum]
      · show s.busyThreads - 1
          = ((s.workers.set i { w with phase := Phase.idle }).countP countedInBusy : Int)
        simp at hcb2
        rw [hbusy]
        omega
      · intro hcb w' hw'
        rcases List.mem_or_eq_of_mem_set hw' with hmem | rfl
        · exact hnc hcb w' hmem
        · simp
  | timeoutExit i =>
    obtain ⟨w, hw, hp, hcore, hq, rfl⟩ := step_timeoutExit_inv hs
    have hcn := countP_set_add countedInNum s.workers i w
      { w with phase := Phase.exited } hw
    have hcb2 := countP_set_add countedInBusy s.workers i w
      { w with phase := Phase.exited } hw
    rw [show countedInNum w = true by simp [countedInNum, hp]] at hcn
    rw [show countedInBusy w = false by simp [countedInBusy, hp]] at hcb2
    simp only [countedInNum, countedInBusy] at hcn hcb2
    refine ⟨⟨?_, ?_, ?_⟩, rfl⟩
    · show s.numThreads - 1
        = ((s.workers.set i { w with phase := Phase.exited }).countP countedInNum : Int)
      simp at hcn
      rw [hnum]
      omega
    · show s.busyThreads
        = ((s.workers.set i { w with phase := Phase.exited }).countP countedInBusy : Int)
      simp at hcb2
      rw [hcb2, hbusy]
    · intro hcb w' hw'
      rcases List.mem_or_eq_of_mem_set hw' with hmem | rfl
      · exact hnc hcb w' hmem
      · simp

theorem runTrace_counterInv {s0 s : PoolState} {as : List Action}
    (h : runTrace s0 as = some s) (hinv : CounterInv s0) :
    CounterInv s ∧ s.cfg = s0.cfg := by
  induction as generalizing s0 with
  | nil =>
    cases h
    exact ⟨hinv, rfl⟩
  | cons a rest ih =>
    simp only [runTrace] at h
    split at h
    · rename_i s1 hstep
      obtain ⟨hinv1, hcfg1⟩ := counterInv_step hstep hinv
      obtain ⟨hinv2, hcfg2⟩ := ih h hinv1
      exact ⟨hinv2, hcfg2.trans hcfg1⟩
    · cases h

/-! ## Claim theorems -/

/-- **C1.**  `execute(func, args, kwargs)` starts a new worker iff either
`max_threads` is unset and `busy_threads` equals `num_threads`, or
`max_threads` is set (always a positive integer after construction) and
`num_threads` is strictly below it; otherwise it starts no worker.  In
every case it enqueues the task. -/
theorem execute_spawn_characterization (s : PoolState) (t : Task)
    (hmax : s.cfg.maxThreads = none
      ∨ ∃ k : Nat, s.cfg.maxThreads = some (k + 1)) :
    (execute s t).workers.length
        = s.workers.length + (if spawnPred s then 1 else 0)
    ∧ (spawnPred s = false → (execute s t).workers = s.workers)
    ∧ (execute s t).queue = s.queue ++ [t]
    ∧ (spawnPred s = true ↔
        (s.cfg.maxThreads = none ∧ s.busyThreads = s.numThreads)
        ∨ ∃ k : Nat, s.cfg.maxThreads = some k ∧ s.numThreads < (k : Int)) := by
  refine ⟨?_, ?_, ?_, ?_⟩
  · by_cases h : spawnPred s <;> simp [execute, addThread, h]
  · intro h; simp [execute, h]
  · by_cases h : spawnPred s <;> simp [execute, addThread, h]
  · rcases hmax with h | ⟨k, h⟩
    · simp [spawnPred, h, truthy, ltMax]
    · simp [spawnPred, h, truthy, ltMax]

/-- **C1 witness**: in a freshly constructed pool with no ceiling, the
spawn predicate holds (`busy_threads == num_threads`), one worker is
started and the task is enqueued. -/
theorem execute_spawn_characterization_witness :
    (execute (init 0 none 1 none) { raises := false }).workers.length
        = (init 0 none 1 none).workers.length
          + (if spawnPred (init 0 none 1 none) then 1 else 0)
    ∧ (spawnPred (init 0 none 1 none) = false →
        (execute (init 0 none 1 none) { raises := false }).workers
          = (init 0 none 1 none).workers)
    ∧ (execute (init 0 none 1 none) { raises := false }).queue
        = (init 0 none 1 none).queue ++ [{ raises := false }]
    ∧ (spawnPred (init 0 none 1 none) = true ↔
        ((init 0 none 1 none).cfg.maxThreads = none
          ∧ (init 0 none 1 none).busyThreads = (init 0 none 1 none).numThreads)
        ∨ ∃ k : Nat, (init 0 none 1 none).cfg.maxThreads = some k
            ∧ (init 0 none 1 none).numThreads < (k : Int)) :=
  execute_spawn_characterization (init 0 none 1 none) { raises := false }
    (Or.inl rfl)

/-- **C2 counterexample.**  In a fresh unbounded pool the spawn predicate
holds, yet `execute` returns with `num_threads` still `0`: the spawn
controller does not increment it inside its critical section; the
increment happens only when the launched worker takes its `enter` step. -/
theorem controller_increment_counterexample :
    spawnPred (init 0 none 1 none) = true
    ∧ (execute (init 0 none 1 none) { raises := false }).numThreads = 0
    ∧ (step (execute (init 0 none 1 none) { raises := false })
        (Action.enter 0)).map PoolState.numThreads = some 1 := by
  decide

/-- **C2 (amended).**  Whenever the spawn predicate is true, `execute`
launches a worker but leaves `num_threads` unchanged; the newly launched
worker increments `num_threads` by exactly one on entry to its loop
(the first line of `_run_jobs`), outside `execute`'s critical section. -/
theorem worker_entry_increments (s : PoolState) (t : Task)
    (h : spawnPred s = true) :
    (execute s t).numThreads = s.numThreads
    ∧ ∃ s' : PoolState,
        step (execute s t) (Action.enter s.workers.length) = some s'
        ∧ s'.numThreads = s.numThreads + 1 := by
  have hx : (execute s t).workers
      = s.workers ++ [{ core := decide (s.numThreads < (s.cfg.coreThreads : Int)),
                        phase := Phase.pending }] := by
    simp [execute, addThread, h]
  have hnum : (execute s t).numThreads = s.numThreads := by
    simp [execute, addThread, h]
  refine ⟨hnum, ?_⟩
  have hw : (execute s t).workers[s.workers.length]?
      = some { core := decide (s.numThreads < (s.cfg.coreThreads : Int)),
               phase := Phase.pending } := by
    rw [hx]; exact List.getElem?_concat_length _ _
  refine ⟨_, step_enter_eq (execute s t) s.workers.length _ hw rfl, ?_⟩
  simp [hnum]

/-- **C2 (amended) witness**: concrete instance in a fresh unbounded
pool. -/
theorem worker_entry_increments_witness :
    (execute (init 0 none 1 none) { raises := false }).numThreads
        = (init 0 none 1 none).numThreads
    ∧ ∃ s' : PoolState,
        step (execute (init 0 none 1 none) { raises := false })
          (Action.enter (init 0 none 1 none).workers.length) = some s'
        ∧ s'.numThreads = (init 0 none 1 none).numThreads + 1 :=
  worker_entry_increments (init 0 none 1 none) { raises := false } (by decide)

/-- **C3 (code bug).**  With `core_threads=0, max_threads=1` the clamped
ceiling is `1`, yet after two `execute` calls that both run before either
launched worker performs its entry increment, both workers enter and
`num_threads` reaches `2`, exceeding the ceiling.  This contradicts the
source's own docstring (`max_threads: maximum number of total threads in
the pool`): the spawn decision reads `num_threads` before the spawned
worker has incremented it. -/
theorem ceiling_exceeded_failing_trace :
    (init 0 (some 1) 1 none).cfg.maxThreads = some 1
    ∧ (runTrace (init 0 (some 1) 1 none)
        [Action.exec { raises := false }, Action.exec { raises := false },
         Action.enter 0, Action.enter 1]).map PoolState.numThreads = some 2 := by
  decide

/-- **C4 counterexample.**  With `core_threads=1` and no ceiling, two
`execute` calls that both run before the first worker's entry increment
create two workers that are *both* flagged core (the flag reads the stale
`num_threads`), although the claim says exactly the first `1` worker ever
created is core. -/
theorem core_flag_counterexample :
    (init 1 none 1 none).cfg.coreThreads = 1
    ∧ (runTrace (init 1 none 1 none)
        [Action.exec { raises := false }, Action.exec { raises := false }]).map
          (fun s => s.workers.map Worker.core) = some [true, true] := by
  decide

/-- **C5.**  Construction clamps a set (hence positive) `max_threads` to
`max(max_threads, core_threads, 1)`; `core_threads=5, max_threads=2`
yields an effective ceiling of `5`; an unset `max_threads` stays unset
(unbounded). -/
theorem init_clamps_ceiling (c m : Nat) (kl : Int) (cb : Option Bool) :
    (init c (some (m + 1)) kl cb).cfg.maxThreads
        = some (Nat.max (m + 1) (Nat.max c 1))
    ∧ (init c none kl cb).cfg.maxThreads = none
    ∧ (init 5 (some 2) 1 none).cfg.maxThreads = some 5 := by
  refine ⟨?_, rfl, rfl⟩
  simp [init, truthy]

/-- **C9.**  `execute` never raises: with every potentially raising
operation of its body made explicit, it always returns normally (the
`try/finally` releases the lock on each path), and it always appends the
task to the unbounded queue, regardless of the pool's saturation. -/
theorem execute_total_and_enqueues (s : PoolState) (t : Task) :
    executeE s t = Except.ok (execute s t)
    ∧ (execute s t).queue = s.queue ++ [t] := by
  constructor
  · simp [executeE, executeTryBody, queuePut, execute]
  · by_cases h : spawnPred s <;> simp [execute, addThread, h]

theorem core_not_exited_step {s s' : PoolState} {a : Action} {j : Nat}
    {v v' : Worker} (hs : step s a = some s') (hv : s.workers[j]? = some v)
    (hv' : s'.workers[j]? = some v') (hcore : v.core = true)
    (hne : v.phase ≠ Phase.exited) : v'.phase ≠ Phase.exited := by
  cases a with
  | exec t =>
    have hs' : s' = execute s t := (Option.some.inj hs).symm
    subst hs'
    have := execute_workers_getElem (t := t) hv
    rw [this] at hv'
    rw [← Option.some.inj hv']
    exact hne
  | enter k =>
    obtain ⟨wk, hk, hp, rfl⟩ := step_enter_inv hs
    rcases set_preserves hv hk hv' with ⟨_, rfl⟩ | ⟨_, rfl, _⟩
    · exact hne
    · simp
  | take k =>
    obtain ⟨wk, t, rest, hk, hq, hp, rfl⟩ := step_take_inv hs
    rcases set_preserves hv hk hv' with ⟨_, rfl⟩ | ⟨_, rfl, _⟩
    · exact hne
    · simp
  | finish k =>
    obtain ⟨wk, t, hk, hp, hcase⟩ := step_finish_inv hs
    rcases hcase with ⟨hc, rfl⟩ | ⟨hc, rfl⟩ <;>
      rcases set_preserves hv hk hv' with ⟨_, rfl⟩ | ⟨_, rfl, _⟩
    · exact hne
    · simp
    · exact hne
    · simp
  | timeoutExit k =>
    obtain ⟨wk, hk, hp, hco, hq, rfl⟩ := step_timeoutExit_inv hs
    rcases set_preserves hv hk hv' with ⟨_, rfl⟩ | ⟨_, _, rfl⟩
    · exact hne
    · rw [hcore] at hco; cases hco

theorem crashed_terminal_step {s s' : PoolState} {a : Action} {i : Nat}
    {u : Worker} (hu : s.workers[i]? = some u) (hph : u.phase = Phase.crashed)
    (hs : step s a = some s') : s'.workers[i]? = some u := by
  cases a with
  | exec t =>
    have hs' : s' = execute s t := (Option.some.inj hs).symm
    subst hs'
    exact execute_workers_getElem hu
  | enter k =>
    obtain ⟨wk, hk, hp, rfl⟩ := step_enter_inv hs
    by_cases hik : i = k
    · subst hik
      rw [hu] at hk
      rw [← Option.some.inj hk, hph] at hp
      cases hp
    · show (s.workers.set k _)[i]? = some u
      rw [List.getElem?_set_ne (fun h => hik h.symm)]
      exact hu
  | take k =>
    obtain ⟨wk, t, rest, hk, hq, hp, rfl⟩ := step_take_inv hs
    by_cases hik : i = k
    · subst hik
      rw [hu] at hk
      rw [← Option.some.inj hk, hph] at hp
      cases hp
    · show (s.workers.set k _)[i]? = some u
      rw [List.getElem?_set_ne (fun h => hik h.symm)]
      exact hu
  | finish k =>
    obtain ⟨wk, t, hk, hp, hcase⟩ := step_finish_inv hs
    by_cases hik : i = k
    · subst hik
      rw [hu] at hk
      rw [← Option.some.inj hk, hph] at hp
      cases hp
    · rcases hcase with ⟨hc, rfl⟩ | ⟨hc, rfl⟩ <;>
        · show (s.workers.set k _)[i]? = some u
          rw [List.getElem?_set_ne (fun h => hik h.symm)]
          exact hu
  | timeoutExit k =>
    obtain ⟨wk, hk, hp, hco, hq, rfl⟩ := step_timeoutExit_inv hs
    by_cases hik : i = k
    · subst hik
      rw [hu] at hk
      rw [← Option.some.inj hk, hph] at hp
      cases hp
    · show (s.workers.set k _)[i]? = some u
      rw [List.getElem?_set_ne (fun h => hik h.symm)]
      exact hu

/-- **C6.**  A worker waiting in the loop can exit iff it is transient
(non-core) and its queue retrieval signals `Empty`, which — whether the
transient wait is a `keepalive`-bounded blocking `get` or, for
`keepalive ≤ 0`, a single non-blocking check — is possible exactly when
the queue is empty.  A core worker's retrieval blocks with no timeout and
never raises `Empty`, and no step of any worker ever moves a core worker
to `exited`.  A worker that exits decrements `num_threads` by exactly
one. -/
theorem transient_exit_characterization (s : PoolState) (i : Nat) (w : Worker)
    (hw : s.workers[i]? = some w) (hidle : w.phase = Phase.idle) :
    ((step s (Action.timeoutExit i)).isSome = true
        ↔ (w.core = false ∧ s.queue = []))
    ∧ (∀ s' : PoolState, step s (Action.timeoutExit i) = some s' →
        s'.numThreads = s.numThreads - 1
        ∧ s'.workers[i]? = some { core := w.core, phase := Phase.exited })
    ∧ (∀ (a : Action) (s' : PoolState) (j : Nat) (v v' : Worker),
        step s a = some s' → s.workers[j]? = some v →
        s'.workers[j]? = some v' → v.core = true →
        v.phase ≠ Phase.exited → v'.phase ≠ Phase.exited) := by
  refine ⟨⟨?_, ?_⟩, ?_, ?_⟩
  · intro h
    obtain ⟨s', hs'⟩ := Option.isSome_iff_exists.mp h
    obtain ⟨w0, hw0, hp0, hcore0, hq0, rfl⟩ := step_timeoutExit_inv hs'
    rw [hw] at hw0
    rw [Option.some.inj hw0]
    exact ⟨hcore0, hq0⟩
  · rintro ⟨hcore, hq⟩
    rw [step_timeoutExit_eq s i w hw hidle hcore hq]
    rfl
  · intro s' hs'
    obtain ⟨w0, hw0, hp0, hcore0, hq0, rfl⟩ := step_timeoutExit_inv hs'
    rw [hw] at hw0
    have hww : w = w0 := Option.some.inj hw0
    subst hww
    refine ⟨rfl, ?_⟩
    show (s.workers.set i _)[i]? = some _
    rw [List.getElem?_set_self (lt_length_of_getElem? hw)]
  · intro a s' j v v' hs hv hv' hc hne
    exact core_not_exited_step hs hv hv' hc hne

/-- **C6 witness**: a transient idle worker with an empty queue has an
enabled exit step. -/
theorem transient_exit_characterization_witness :
    (step sampleQuiescentState (Action.timeoutExit 0)).isSome = true :=
  ((transient_exit_characterization sampleQuiescentState 0
      { core := false, phase := Phase.idle } rfl rfl).1).mpr ⟨rfl, rfl⟩

/-- **C7.**  When a worker finishes a dequeued task and the configured
callback (if any) is well behaved, the exception callback is invoked
exactly once if the task raised and a callback is configured, and zero
times otherwise; the worker decrements `busy_threads`, returns to `idle`
waiting on the queue, and can dequeue the next queued task, so a failing
task does not prevent later tasks from executing. -/
theorem finish_callback_characterization (s : PoolState) (i : Nat)
    (w : Worker) (t : Task) (hw : s.workers[i]? = some w)
    (hbusy : w.phase = Phase.busy t)
    (hcb : s.cfg.exceptionCallback = none
      ∨ s.cfg.exceptionCallback = some false) :
    ∃ s' : PoolState,
      step s (Action.finish i) = some s'
      ∧ s'.callbackCalls = s.callbackCalls
          + (if t.raises && s.cfg.exceptionCallback.isSome then 1 else 0)
      ∧ s'.busyThreads = s.busyThreads - 1
      ∧ s'.workers[i]? = some { core := w.core, phase := Phase.idle }
      ∧ s'.queue = s.queue
      ∧ (∀ (t' : Task) (rest : List Task), s.queue = t' :: rest →
          (step s' (Action.take i)).isSome = true) := by
  have hnc : (t.raises && s.cfg.exceptionCallback == some true) = false := by
    rcases hcb with h | h <;> simp [h]
  refine ⟨_, step_finish_ok_eq s i w t hw hbusy hnc, ?_, rfl, ?_, rfl, ?_⟩
  · show (if t.raises && s.cfg.exceptionCallback.isSome then s.callbackCalls + 1
        else s.callbackCalls)
      = s.callbackCalls + (if t.raises && s.cfg.exceptionCallback.isSome then 1 else 0)
    split <;> simp
  · show (s.workers.set i _)[i]? = some _
    rw [List.getElem?_set_self (lt_length_of_getElem? hw)]
  · intro t' rest hq
    have hw' : (s.workers.set i { core := w.core, phase := Phase.idle })[i]?
        = some { core := w.core, phase := Phase.idle } :=
      List.getElem?_set_self (lt_length_of_getElem? hw)
    simp only [step, hw', hq]
    rfl

/-- **C7 witness**: a raising task with a configured well-behaved
callback produces exactly one callback invocation. -/
theorem finish_callback_characterization_witness :
    (step sampleBusyState (Action.finish 0)).map PoolState.callbackCalls
      = some 1 := by
  obtain ⟨s', hstep, hcalls, -, -, -, -⟩ :=
    finish_callback_characterization sampleBusyState 0
      { core := false, phase := Phase.busy { raises := true } }
      { raises := true } rfl rfl (Or.inr rfl)
  rw [hstep]
  simp only [Option.map_some']
  rw [hcalls]
  rfl

/-- **C8.**  In every reachable state under any interleaving of `execute`
calls and worker steps, `busy_threads ≤ num_threads` (every counter update
is one atomic lock-protected step of the model), and — provided any
configured exception callback returns normally when invoked — once no
worker is executing a task, `busy_threads` is `0`. -/
theorem busy_le_num_invariant (c : Nat) (mt : Option Nat) (kl : Int)
    (cb : Option Bool) (s : PoolState) (h : Reachable (init c mt kl cb) s) :
    s.busyThreads ≤ s.numThreads
    ∧ (cb ≠ some true →
        (∀ w ∈ s.workers, ∀ t : Task, w.phase ≠ Phase.busy t) →
        s.busyThreads = 0) := by
  obtain ⟨as, hrun⟩ := h
  obtain ⟨⟨hnum, hbusy, hnc⟩, hcfg⟩ :=
    runTrace_counterInv hrun (counterInv_init c mt kl cb)
  constructor
  · rw [hnum, hbusy]
    have hmono := List.countP_mono_left (l := s.workers)
      (p := countedInBusy) (q := countedInNum) ?_
    · exact_mod_cast hmono
    · intro w _ hw
      cases hph : w.phase <;> simp [countedInBusy, countedInNum, hph] at hw ⊢
  · intro hcb hnobusy
    have hcb' : s.cfg.exceptionCallback ≠ some true := by
      rw [hcfg]
      simpa [init] using hcb
    have hz : s.workers.countP countedInBusy = 0 := by
      rw [List.countP_eq_zero]
      intro w hw
      cases hph : w.phase with
      | pending => simp [countedInBusy, hph]
      | idle => simp [countedInBusy, hph]
      | busy t => exact absurd hph (hnobusy w hw t)
      | exited => simp [countedInBusy, hph]
      | crashed => exact absurd hph (hnc hcb' w hw)
    rw [hbusy, hz]
    rfl

/-- **C8 witness**: after submitting one task and running it to
completion, `busy_threads ≤ num_threads` and `busy_threads = 0`. -/
theorem busy_le_num_invariant_witness :
    sampleQuiescentState.busyThreads ≤ sampleQuiescentState.numThreads
    ∧ sampleQuiescentState.busyThreads = 0 := by
  have h := busy_le_num_invariant 0 none 1 none sampleQuiescentState
    ⟨[Action.exec { raises := false }, Action.enter 0, Action.take 0,
      Action.finish 0], by decide⟩
  refine ⟨h.1, h.2 (by decide) ?_⟩
  intro w hw t
  rw [List.mem_singleton.mp hw]
  simp

/-- **C10.**  If a task raises and the configured exception callback
itself raises when invoked, the exception escapes the `except:` handler
and kills the worker: the callback is invoked (once), but neither
`busy_threads` nor `num_threads` is decremented, the worker is `crashed`,
and no later step of the pool ever changes that worker again — both
counters stay inflated by one on its account. -/
theorem callback_raise_leaks_counters (s : PoolState) (i : Nat) (w : Worker)
    (t : Task) (hw : s.workers[i]? = some w) (hbusy : w.phase = Phase.busy t)
    (hraise : t.raises = true) (hcb : s.cfg.exceptionCallback = some true) :
    ∃ s' : PoolState,
      step s (Action.finish i) = some s'
      ∧ s'.busyThreads = s.busyThreads
      ∧ s'.numThreads = s.numThreads
      ∧ s'.callbackCalls = s.callbackCalls + 1
      ∧ s'.workers[i]? = some { core := w.core, phase := Phase.crashed }
      ∧ (∀ (a : Action) (s'' : PoolState), step s' a = some s'' →
          s''.workers[i]? = some { core := w.core, phase := Phase.crashed }) := by
  refine ⟨_, step_finish_crash_eq s i w t hw hbusy hraise hcb, rfl, rfl, rfl,
    ?_, ?_⟩
  · show (s.workers.set i _)[i]? = some _
    rw [List.getElem?_set_self (lt_length_of_getElem? hw)]
  · intro a s'' hs''
    have hu : ((s.workers.set i { w with phase := Phase.crashed }))[i]?
        = some { core := w.core, phase := Phase.crashed } :=
      List.getElem?_set_self (lt_length_of_getElem? hw)
    exact crashed_terminal_step hu rfl hs''

/-- **C10 witness**: concrete crashed worker leaves `busy_threads`,
`num_threads` and the callback count at `1`. -/
theorem callback_raise_leaks_counters_witness :
    (step sampleCrashingState (Action.finish 0)).map
      (fun x => (x.busyThreads, x.numThreads, x.callbackCalls))
      = some (1, 1, 1) := by
  obtain ⟨s', hstep, hb, hn, hc, -, -⟩ :=
    callback_raise_leaks_counters sampleCrashingState 0
      { core := false, phase := Phase.busy { raises := true } }
      { raises := true } rfl rfl rfl rfl
  rw [hstep]
  simp only [Option.map_some']
  rw [hb, hn, hc]
  rfl

theorem seqExec_spawn_eq (s : PoolState) (t : Task) (h : spawnPred s = true) :
    seqExec s t = some { s with
        numThreads := s.numThreads + 1
        queue := s.queue ++ [t]
        workers := s.workers ++
          [{ core := decide (s.numThreads < (s.cfg.coreThreads : Int)),
             phase := Phase.idle }] } := by
  have hx : execute s t = { s with
      queue := s.queue ++ [t]
      workers := s.workers ++
        [{ core := decide (s.numThreads < (s.cfg.coreThreads : Int)),
           phase := Phase.pending }] } := by
    simp [execute, addThread, h]
  rw [seqExec, if_pos h, hx]
  rw [step_enter_eq _ s.workers.length
    { core := decide (s.numThreads < (s.cfg.coreThreads : Int)),
      phase := Phase.pending }
    (List.getElem?_concat_length _ _) rfl]
  rw [set_concat_length]

theorem seqExec_noSpawn_eq (s : PoolState) (t : Task) (h : spawnPred s = false) :
    seqExec s t = some { s with queue := s.queue ++ [t] } := by
  rw [seqExec, if_neg (by rw [h]; exact Bool.false_ne_true)]
  congr 1
  simp [execute, h]

theorem countP_core_of_flags (c : Nat) (ws : List Worker)
    (hflags : ∀ (i : Nat) (w : Worker), ws[i]? = some w
      → w.core = decide (i < c)) :
    ws.countP (fun w => w.core) = min ws.length c := by
  induction ws using List.reverseRecOn with
  | nil => simp
  | append_singleton ws w ih =>
    have hw : w.core = decide (ws.length < c) :=
      hflags ws.length w (List.getElem?_concat_length ws w)
    have hprefix : ∀ (i : Nat) (w' : Worker), ws[i]? = some w'
        → w'.core = decide (i < c) := by
      intro i w' hi
      have hlt : i < ws.length := lt_length_of_getElem? hi
      apply hflags i w'
      rw [List.getElem?_append, if_pos hlt]
      exact hi
    rw [List.countP_append, ih hprefix]
    rcases hb : decide (ws.length < c) with _ | _
    · rw [hb] at hw
      have hnlt : ¬ ws.length < c := of_decide_eq_false hb
      have h1 : List.countP (fun w => w.core) [w] = 0 := by simp [hw]
      rw [h1]
      simp only [List.length_append, List.length_singleton]
      omega
    · rw [hb] at hw
      have hlt : ws.length < c := of_decide_eq_true hb
      have h1 : List.countP (fun w => w.core) [w] = 1 := by simp [hw]
      rw [h1]
      simp only [List.length_append, List.length_singleton]
      omega

theorem flags_set {c : Nat} {ws : List Worker} {i : Nat} {w u : Worker}
    (hw : ws[i]? = some w) (hcoreu : u.core = w.core)
    (hflags : ∀ (j : Nat) (v : Worker), ws[j]? = some v
      → v.core = decide (j < c)) :
    ∀ (j : Nat) (v : Worker), (ws.set i u)[j]? = some v
      → v.core = decide (j < c) := by
  intro j v hv
  rw [List.getElem?_set] at hv
  by_cases hij : i = j
  · rw [if_pos hij, if_pos (lt_length_of_getElem? hw)] at hv
    rw [← Option.some.inj hv, hcoreu]
    exact hij ▸ hflags i w hw
  · rw [if_neg hij] at hv
    exact hflags j v hv

theorem seqInv_init (c : Nat) (mt : Option Nat) (kl : Int) (cb : Option Bool) :
    SeqInv c (init c mt kl cb) := by
  refine ⟨rfl, ?_, ?_, ?_, ?_⟩ <;> simp [init]

theorem seqInv_step {c : Nat} {s s' : PoolState} {a : Action}
    (hs : seqStep s a = some s') (hinv : SeqInv c s) : SeqInv c s' := by
  obtain ⟨hcfg, hflags, hnp, hnum, hca⟩ := hinv
  cases a with
  | exec t =>
    by_cases h : spawnPred s
    · rw [show seqStep s (Action.exec t) = seqExec s t from rfl,
        seqExec_spawn_eq s t h] at hs
      have hs' : s' = _ := (Option.some.inj hs).symm
      subst hs'
      have hcount_le : s.workers.countP countedInNum ≤ s.workers.length :=
        List.countP_le_length _
      have hcore_count : s.workers.countP (fun w => w.core)
          = min s.workers.length c := countP_core_of_flags c s.workers hflags
      have hmono : s.workers.countP (fun w => w.core)
          ≤ s.workers.countP countedInNum :=
        List.countP_mono_left (fun w hw hc2 => hca w hw hc2)
      have hmin_le : min s.workers.length c
          ≤ s.workers.countP countedInNum := by
        rw [← hcore_count]; exact hmono
      have hiff : (s.workers.countP countedInNum < c)
          ↔ (s.workers.length < c) := by
        omega
      have hflag_eq : decide (s.numThreads < (s.cfg.coreThreads : Int))
          = decide (s.workers.length < c) := by
        rw [hnum, hcfg]
        exact decide_eq_decide.mpr (Nat.cast_lt.trans hiff)
      refine ⟨hcfg, ?_, ?_, ?_, ?_⟩
      · intro i w hw
        have hw2 : (s.workers ++
            [{ core := decide (s.numThreads < (s.cfg.coreThreads : Int)),
               phase := Phase.idle }])[i]? = some w := hw
        rcases Nat.lt_trichotomy i s.workers.length with hi | hi | hi
        · rw [List.getElem?_append, if_pos hi] at hw2
          exact hflags i w hw2
        · subst hi
          rw [List.getElem?_concat_length] at hw2
          rw [← Option.some.inj hw2]
          exact hflag_eq
        · rw [List.getElem?_append, if_neg (by omega)] at hw2
          rw [List.getElem?_eq_none (by simp; omega)] at hw2
          cases hw2
      · intro w hw
        have hw2 : w ∈ s.workers ++
            [{ core := decide (s.numThreads < (s.cfg.coreThreads : Int)),
               phase := Phase.idle }] := hw
        rcases List.mem_append.mp hw2 with hmem | hmem
        · exact hnp w hmem
        · rw [List.mem_singleton.mp hmem]
          simp
      · show s.numThreads + 1 = ((s.workers ++
            [({ core := decide (s.numThreads < (s.cfg.coreThreads : Int)),
                phase := Phase.idle } : Worker)]).countP countedInNum : Int)
        have hcApp : (s.workers ++
            [({ core := decide (s.numThreads < (s.cfg.coreThreads : Int)),
                phase := Phase.idle } : Worker)]).countP countedInNum
            = s.workers.countP countedInNum + 1 := by
          rw [List.countP_append]
          simp [countedInNum]
        rw [hcApp]
        push_cast
        rw [hnum]
      · intro w hw hc2
        have hw2 : w ∈ s.workers ++
            [{ core := decide (s.numThreads < (s.cfg.coreThreads : Int)),
               phase := Phase.idle }] := hw
        rcases List.mem_append.mp hw2 with hmem | hmem
        · exact hca w hmem hc2
        · rw [List.mem_singleton.mp hmem]
          rfl
    · rw [show seqStep s (Action.exec t) = seqExec s t from rfl,
        seqExec_noSpawn_eq s t (Bool.of_not_eq_true h)] at hs
      have hs' : s' = _ := (Option.some.inj hs).symm
      subst hs'
      exact ⟨hcfg, hflags, hnp, hnum, hca⟩
  | enter i =>
    obtain ⟨w, hw, hp, rfl⟩ := step_enter_inv hs
    exact absurd hp (hnp w (mem_of_getElem?_eq hw))
  | take i =>
    obtain ⟨w, t, rest, hw, hq, hp, rfl⟩ := step_take_inv hs
    have hcn := countP_set_add countedInNum s.workers i w
      { w with phase := Phase.busy t } hw
    rw [show countedInNum w = true by simp [countedInNum, hp],
      show countedInNum { w with phase := Phase.busy t } = true from rfl] at hcn
    refine ⟨hcfg, flags_set hw rfl hflags, ?_, ?_, ?_⟩
    · intro v hv
      rcases List.mem_or_eq_of_mem_set hv with hmem | rfl
      · exact hnp v hmem
      · simp
    · show s.numThreads = _
      simp at hcn
      rw [hnum, hcn]
    · intro v hv hc2
      rcases List.mem_or_eq_of_mem_set hv with hmem | rfl
      · exact hca v hmem hc2
      · rfl
  | finish i =>
    obtain ⟨w, t, hw, hp, hcase⟩ := step_finish_inv hs
    rcases hcase with ⟨hc, rfl⟩ | ⟨hc, rfl⟩
    · have hcn := countP_set_add countedInNum s.workers i w
        { w with phase := Phase.crashed } hw
      rw [show countedInNum w = true by simp [countedInNum, hp],
        show countedInNum { w with phase := Phase.crashed } = true from rfl] at hcn
      refine ⟨hcfg, flags_set hw rfl hflags, ?_, ?_, ?_⟩
      · intro v hv
        rcases List.mem_or_eq_of_mem_set hv with hmem | rfl
        · exact hnp v hmem
        · simp
      · show s.numThreads = _
        simp at hcn
        rw [hnum, hcn]
      · intro v hv hc2
        rcases List.mem_or_eq_of_mem_set hv with hmem | rfl
        · exact hca v hmem hc2
        · rfl
    · have hcn := countP_set_add countedInNum s.workers i w
        { w with phase := Phase.idle } hw
      rw [show countedInNum w = true by simp [countedInNum, hp],
        show countedInNum { w with phase := Phase.idle } = true from rfl] at hcn
      refine ⟨hcfg, flags_set hw rfl hflags, ?_, ?_, ?_⟩
      · intro v hv
        rcases List.mem_or_eq_of_mem_set hv with hmem | rfl
        · exact hnp v hmem
        · simp
      · show s.numThreads = _
        simp at hcn
        rw [hnum, hcn]
      · intro v hv hc2
        rcases List.mem_or_eq_of_mem_set hv with hmem | rfl
        · exact hca v hmem hc2
        · rfl
  | timeoutExit i =>
    obtain ⟨w, hw, hp, hcore, hq, rfl⟩ := step_timeoutExit_inv hs
    have hcn := countP_set_add countedInNum s.workers i w
      { w with phase := Phase.exited } hw
    rw [show countedInNum w = true by simp [countedInNum, hp],
      show countedInNum { w with phase := Phase.exited } = false from rfl] at hcn
    refine ⟨hcfg, flags_set hw rfl hflags, ?_, ?_, ?_⟩
    · intro v hv
      rcases List.mem_or_eq_of_mem_set hv with hmem | rfl
      · exact hnp v hmem
      · simp
    · show s.numThreads - 1
        = ((s.workers.set i { w with phase := Phase.exited }).countP
            countedInNum : Int)
      simp at hcn
      rw [hnum]
      omega
    · intro v hv hc2
      rcases List.mem_or_eq_of_mem_set hv with hmem | rfl
      · exact hca v hmem hc2
      · rw [show ({ w with phase := Phase.exited } : Worker).core = w.core
            from rfl, hcore] at hc2
        cases hc2

theorem runSeqTrace_seqInv {c : Nat} {s0 s : PoolState} {as : List Action}
    (h : runSeqTrace s0 as = some s) (hinv : SeqInv c s0) : SeqInv c s := by
  induction as generalizing s0 with
  | nil =>
    cases h
    exact hinv
  | cons a rest ih =>
    simp only [runSeqTrace] at h
    split at h
    · rename_i s1 hstep
      exact ih h (seqInv_step hstep hinv)
    · cases h

/-- **C4 (amended).**  A worker is flagged core iff `num_threads` at the
lock-held moment of its creation is below `core_threads`.  Under the
sequentialized scheduling in which each launched worker performs its
entry increment before any other step (and hence `num_threads` is not
stale), exactly the first `core_threads` workers ever created are
flagged core, and every later-created worker is flagged transient. -/
theorem core_flags_first (c : Nat) (mt : Option Nat) (kl : Int)
    (cb : Option Bool) (as : List Action) (s : PoolState)
    (h : runSeqTrace (init c mt kl cb) as = some s) :
    ∀ (i : Nat) (w : Worker), s.workers[i]? = some w
      → w.core = decide (i < c) :=
  (runSeqTrace_seqInv h (seqInv_init c mt kl cb)).flags

/-- **C4 (amended) witness**: with `core_threads = 1`, the first worker
created under sequentialized scheduling is flagged core. -/
theorem core_flags_first_witness :
    ({ core := true, phase := Phase.idle } : Worker).core
      = decide ((0 : Nat) < 1) :=
  core_flags_first 1 none 1 none [Action.exec { raises := false }]
    sampleSeqState (by decide) 0 { core := true, phase := Phase.idle } rfl

end ThreadPool
